import Mathlib

/-!
# Verification of the nara-cli quest submission pipeline

Shallow embedding of the quest answer-submission core of `nara-cli`
(`src/constants.ts` quest SDK, `src/cli/commands/swap.ts` quest commands,
`src/cli/index.ts` / transaction utils confirmation poller), together with
proofs about the proof transcoder, field codec, submission router, reward
extractor, relay submission and confirmation poller.

Conventions of the embedding:
* JavaScript `BigInt` values are modelled as `Nat` (all values involved are
  non-negative; where the source subtracts, the relevant bound is carried as
  a hypothesis so that `Nat` subtraction agrees with `BigInt` subtraction).
* `Buffer`s are modelled as `List Nat` whose entries are bytes (`< 256`).
* Hex strings are modelled as `List Char`; `BigInt("0x" + s)` is modelled by
  `parseHexBig`, which fails (returns `none`) on the empty digit string,
  exactly as `BigInt("0x")` throws a `SyntaxError` in JavaScript.
* Strings passed to `Buffer.from(answer, "utf-8")` are modelled by their
  UTF-8 byte lists; the empty string corresponds to the empty byte list.
-/

/-- The BN254 base-field prime, `BN254_FIELD` in `src/constants.ts`. -/
def BN254_FIELD : Nat :=
  21888242871839275222246405745257275088696311157297823662689037894645226208583

/-- Hex digits (most significant first) of `v`, with explicit fuel;
models `BigInt.prototype.toString(16)` digit extraction.  `fuel ≥ v`
suffices for the result to be the true digit string. -/
def hexDigitsAux : Nat → Nat → List Nat
  | 0, _ => []
  | _ + 1, 0 => []
  | fuel + 1, v + 1 => hexDigitsAux fuel ((v + 1) / 16) ++ [(v + 1) % 16]

/-- Digit values of `v.toString(16)` (JavaScript renders `0` as `"0"`). -/
def natToHexDigits (v : Nat) : List Nat :=
  if v = 0 then [0] else hexDigitsAux v v

/-- `String.prototype.padStart(64, "0")` on a digit list: left-pad with
zeros up to length 64, never truncate. -/
def padStart64 (l : List Nat) : List Nat :=
  List.replicate (64 - l.length) 0 ++ l

/-- `Buffer.from(hexString, "hex")`: consume hex digits two at a time,
each pair becoming one byte (a trailing unpaired digit is dropped, as in
Node.js). -/
def pairsToBytes : List Nat → List Nat
  | h :: l :: rest => (h * 16 + l) :: pairsToBytes rest
  | _ => []

/-- `toBigEndian32` from `src/constants.ts`:
`Buffer.from(v.toString(16).padStart(64, "0"), "hex")`. -/
def toBigEndian32 (v : Nat) : List Nat :=
  pairsToBytes (padStart64 (natToHexDigits v))

/-- Big-endian value of a byte list. -/
def fromBE (bs : List Nat) : Nat :=
  bs.foldl (fun a b => a * 256 + b) 0

/-- Big-endian value of a hex-digit list. -/
def fromHexDigits (ds : List Nat) : Nat :=
  ds.foldl (fun a d => a * 16 + d) 0

/-- The canonical 32-byte big-endian encoding of `v` (the spec's
"big-endian, 32 bytes, left-padded with zero bytes"). -/
def beSpec32 (v : Nat) : List Nat :=
  (List.range 32).map (fun i => v / 256 ^ (31 - i) % 256)

-- ─── Basic facts about the digit extraction ──────────────────────

theorem hexDigitsAux_mem_lt (fuel v : Nat) :
    ∀ d ∈ hexDigitsAux fuel v, d < 16 := by
  induction fuel generalizing v with
  | zero => intro d hd; simp [hexDigitsAux] at hd
  | succ n ih =>
    intro d hd
    match v with
    | 0 => simp [hexDigitsAux] at hd
    | w + 1 =>
      simp only [hexDigitsAux, List.mem_append, List.mem_singleton] at hd
      rcases hd with hd | hd
      · exact ih _ d hd
      · subst hd; exact Nat.mod_lt _ (by norm_num)

theorem fromHexDigits_append (l₁ l₂ : List Nat) :
    fromHexDigits (l₁ ++ l₂) =
      fromHexDigits l₁ * 16 ^ l₂.length + fromHexDigits l₂ := by
  have h : ∀ (l : List Nat) (a : Nat),
      l.foldl (fun a d => a * 16 + d) a =
        a * 16 ^ l.length + l.foldl (fun a d => a * 16 + d) 0 := by
    intro l
    induction l with
    | nil => intro a; simp
    | cons d rest ih =>
      intro a
      simp only [List.foldl_cons, List.length_cons]
      rw [ih (a * 16 + d), ih (0 * 16 + d)]
      ring
  simp only [fromHexDigits, List.foldl_append]
  rw [h l₂ (l₁.foldl (fun a d => a * 16 + d) 0)]

theorem fromHexDigits_hexDigitsAux (fuel v : Nat) (h : v ≤ fuel) :
    fromHexDigits (hexDigitsAux fuel v) = v := by
  induction fuel generalizing v with
  | zero => interval_cases v; simp [hexDigitsAux, fromHexDigits]
  | succ n ih =>
    match v with
    | 0 => simp [hexDigitsAux, fromHexDigits]
    | w + 1 =>
      have hdiv : (w + 1) / 16 ≤ n := by
        have := Nat.div_lt_self (Nat.succ_pos w) (by norm_num : 1 < 16)
        omega
      simp only [hexDigitsAux, fromHexDigits_append]
      rw [ih _ hdiv]
      simp [fromHexDigits]
      omega

theorem hexDigitsAux_length_le (fuel v n : Nat) (h : v < 16 ^ n) :
    (hexDigitsAux fuel v).length ≤ n := by
  induction fuel generalizing v n with
  | zero => simp [hexDigitsAux]
  | succ m ih =>
    match v with
    | 0 => simp [hexDigitsAux]
    | w + 1 =>
      have hn : n ≠ 0 := by
        rintro rfl; simp at h
      obtain ⟨k, rfl⟩ := Nat.exists_eq_succ_of_ne_zero hn
      have hdiv : (w + 1) / 16 < 16 ^ k := by
        rw [Nat.div_lt_iff_lt_mul (by norm_num : 0 < 16)]
        calc w + 1 < 16 ^ (k + 1) := h
        _ = 16 ^ k * 16 := by ring
      simp only [hexDigitsAux, List.length_append, List.length_singleton]
      have := ih ((w + 1) / 16) k hdiv
      omega

theorem natToHexDigits_length_le (v : Nat) (h : v < 16 ^ 64) :
    (natToHexDigits v).length ≤ 64 := by
  unfold natToHexDigits
  split
  · simp
  · exact hexDigitsAux_length_le v v 64 h

theorem natToHexDigits_mem_lt (v : Nat) : ∀ d ∈ natToHexDigits v, d < 16 := by
  unfold natToHexDigits
  split
  · intro d hd; simp at hd; omega
  · exact hexDigitsAux_mem_lt v v

theorem fromHexDigits_natToHexDigits (v : Nat) :
    fromHexDigits (natToHexDigits v) = v := by
  unfold natToHexDigits
  split
  · subst v; simp [fromHexDigits]
  · exact fromHexDigits_hexDigitsAux v v le_rfl

theorem padStart64_length (l : List Nat) (h : l.length ≤ 64) :
    (padStart64 l).length = 64 := by
  simp [padStart64]
  omega

theorem fromHexDigits_padStart64 (l : List Nat) :
    fromHexDigits (padStart64 l) = fromHexDigits l := by
  unfold padStart64
  rw [fromHexDigits_append]
  have : ∀ n : Nat, fromHexDigits (List.replicate n 0) = 0 := by
    intro n
    induction n with
    | zero => simp [fromHexDigits]
    | succ k ih =>
      simp only [List.replicate_succ, fromHexDigits, List.foldl_cons] at *
      simpa using ih
  rw [this]
  simp

theorem padStart64_mem_lt (l : List Nat) (h : ∀ d ∈ l, d < 16) :
    ∀ d ∈ padStart64 l, d < 16 := by
  intro d hd
  simp only [padStart64, List.mem_append, List.mem_replicate] at hd
  rcases hd with hd | hd
  · omega
  · exact h d hd

-- ─── Byte-pairing and big-endian decoding ────────────────────────

theorem pairsToBytes_length (l : List Nat) :
    (pairsToBytes l).length = l.length / 2 := by
  induction l using pairsToBytes.induct with
  | case1 h d rest ih => simp [pairsToBytes, ih]; omega
  | case2 l h => match l, h with
    | [], _ => simp [pairsToBytes]
    | [x], _ => simp [pairsToBytes]
    | a :: b :: r, h => exact (h a b r rfl).elim

theorem pairsToBytes_mem_lt (l : List Nat) (h : ∀ d ∈ l, d < 16) :
    ∀ b ∈ pairsToBytes l, b < 256 := by
  induction l using pairsToBytes.induct with
  | case1 hd d rest ih =>
    intro b hb
    simp only [pairsToBytes, List.mem_cons] at hb
    rcases hb with hb | hb
    · have h1 : hd < 16 := h hd (by simp)
      have h2 : d < 16 := h d (by simp)
      omega
    · exact ih (fun x hx => h x (by simp [hx])) b hb
  | case2 l hl => match l, hl with
    | [], _ => simp [pairsToBytes]
    | [x], _ => simp [pairsToBytes]
    | a :: b :: r, hl => exact (hl a b r rfl).elim

theorem foldl_pairsToBytes (l : List Nat) (h : l.length % 2 = 0) :
    ∀ acc : Nat,
      (pairsToBytes l).foldl (fun a b => a * 256 + b) acc =
        l.foldl (fun a d => a * 16 + d) acc := by
  induction l using pairsToBytes.induct with
  | case1 hd d rest ih =>
    intro acc
    have hr : rest.length % 2 = 0 := by
      simp only [List.length_cons] at h; omega
    simp only [pairsToBytes, List.foldl_cons]
    rw [ih hr]
    congr 1
    ring
  | case2 l hl => match l, hl with
    | [], _ => intro acc; simp [pairsToBytes]
    | [x], _ => intro acc; simp at h
    | a :: b :: r, hl => exact (hl a b r rfl).elim

theorem fromBE_pairsToBytes (l : List Nat) (h : l.length % 2 = 0) :
    fromBE (pairsToBytes l) = fromHexDigits l :=
  foldl_pairsToBytes l h 0

theorem toBigEndian32_length (v : Nat) (h : v < 2 ^ 256) :
    (toBigEndian32 v).length = 32 := by
  have h16 : v < 16 ^ 64 := by
    have : (16 : Nat) ^ 64 = 2 ^ 256 := by
      rw [show (16 : Nat) = 2 ^ 4 by norm_num, ← pow_mul]
    omega
  unfold toBigEndian32
  rw [pairsToBytes_length, padStart64_length _ (natToHexDigits_length_le v h16)]

theorem toBigEndian32_mem_lt (v : Nat) :
    ∀ b ∈ toBigEndian32 v, b < 256 := by
  unfold toBigEndian32
  exact pairsToBytes_mem_lt _ (padStart64_mem_lt _ (natToHexDigits_mem_lt v))

theorem fromBE_toBigEndian32 (v : Nat) (h : v < 2 ^ 256) :
    fromBE (toBigEndian32 v) = v := by
  have h16 : v < 16 ^ 64 := by
    have : (16 : Nat) ^ 64 = 2 ^ 256 := by
      rw [show (16 : Nat) = 2 ^ 4 by norm_num, ← pow_mul]
    omega
  unfold toBigEndian32
  rw [fromBE_pairsToBytes _ (by rw [padStart64_length _ (natToHexDigits_length_le v h16)]),
    fromHexDigits_padStart64, fromHexDigits_natToHexDigits]

theorem fromBE_append (l₁ l₂ : List Nat) :
    fromBE (l₁ ++ l₂) = fromBE l₁ * 256 ^ l₂.length + fromBE l₂ := by
  have h : ∀ (l : List Nat) (a : Nat),
      l.foldl (fun a b => a * 256 + b) a =
        a * 256 ^ l.length + l.foldl (fun a b => a * 256 + b) 0 := by
    intro l
    induction l with
    | nil => intro a; simp
    | cons b rest ih =>
      intro a
      simp only [List.foldl_cons, List.length_cons]
      rw [ih (a * 256 + b), ih (0 * 256 + b)]
      ring
  simp only [fromBE, List.foldl_append]
  rw [h l₂ (l₁.foldl (fun a b => a * 256 + b) 0)]

theorem fromBE_cons (b : Nat) (l : List Nat) :
    fromBE (b :: l) = b * 256 ^ l.length + fromBE l := by
  have := fromBE_append [b] l
  simpa [fromBE] using this

theorem fromBE_lt (l : List Nat) (h : ∀ b ∈ l, b < 256) :
    fromBE l < 256 ^ l.length := by
  induction l with
  | nil => simp [fromBE]
  | cons b rest ih =>
    rw [fromBE_cons]
    have hb : b < 256 := h b (by simp)
    have hr : fromBE rest < 256 ^ rest.length :=
      ih (fun x hx => h x (by simp [hx]))
    have : b * 256 ^ rest.length + fromBE rest <
        (b + 1) * 256 ^ rest.length := by nlinarith [pow_pos (show 0 < 256 by norm_num) rest.length]
    calc b * 256 ^ rest.length + fromBE rest
        < (b + 1) * 256 ^ rest.length := this
      _ ≤ 256 * 256 ^ rest.length := by
          have : b + 1 ≤ 256 := hb
          exact Nat.mul_le_mul_right _ this
      _ = 256 ^ (rest.length + 1) := by ring
      _ = 256 ^ (b :: rest).length := by simp

theorem fromBE_inj (xs ys : List Nat) (hlen : xs.length = ys.length)
    (hx : ∀ b ∈ xs, b < 256) (hy : ∀ b ∈ ys, b < 256)
    (h : fromBE xs = fromBE ys) : xs = ys := by
  induction xs generalizing ys with
  | nil =>
    cases ys with
    | nil => rfl
    | cons y ys => simp at hlen
  | cons x xs ih =>
    cases ys with
    | nil => simp at hlen
    | cons y ys =>
      simp only [List.length_cons, Nat.succ_inj] at hlen
      rw [fromBE_cons, fromBE_cons, hlen] at h
      have hxv : fromBE xs < 256 ^ ys.length := by
        rw [← hlen]; exact fromBE_lt xs (fun b hb => hx b (by simp [hb]))
      have hyv : fromBE ys < 256 ^ ys.length :=
        fromBE_lt ys (fun b hb => hy b (by simp [hb]))
      have hpos : 0 < 256 ^ ys.length := pow_pos (by norm_num) _
      have hxy : x = y := by
        have h1 : (x * 256 ^ ys.length + fromBE xs) / 256 ^ ys.length = x := by
          rw [Nat.mul_comm x, Nat.mul_add_div hpos, Nat.div_eq_of_lt hxv]; omega
        have h2 : (y * 256 ^ ys.length + fromBE ys) / 256 ^ ys.length = y := by
          rw [Nat.mul_comm y, Nat.mul_add_div hpos, Nat.div_eq_of_lt hyv]; omega
        rw [← h1, ← h2, h]
      subst hxy
      have htail : fromBE xs = fromBE ys := by omega
      rw [ih ys hlen (fun b hb => hx b (by simp [hb]))
        (fun b hb => hy b (by simp [hb])) htail]

-- ─── The canonical 32-byte big-endian encoding ───────────────────

theorem fromBE_digits_range (n v : Nat) :
    fromBE ((List.range n).map (fun i => v / 256 ^ (n - 1 - i) % 256)) =
      v % 256 ^ n := by
  induction n generalizing v with
  | zero => simp [fromBE, Nat.mod_one]
  | succ k ih =>
    rw [List.range_succ, List.map_append, fromBE_append]
    have hmap : (List.range k).map (fun i => v / 256 ^ (k + 1 - 1 - i) % 256) =
        (List.range k).map (fun i => (v / 256) / 256 ^ (k - 1 - i) % 256) := by
      apply List.map_congr_left
      intro i hi
      rw [List.mem_range] at hi
      have : k + 1 - 1 - i = (k - 1 - i) + 1 := by omega
      rw [this, Nat.div_div_eq_div_mul, pow_succ]
      ring_nf
    rw [hmap, ih (v / 256)]
    simp only [List.map_cons, List.map_nil, List.length_cons, List.length_nil, fromBE,
      List.foldl_cons, List.foldl_nil]
    have hsplit : v = 256 * (v / 256) + v % 256 := (Nat.div_add_mod v 256).symm
    have hr : v % 256 < 256 := Nat.mod_lt _ (by norm_num)
    have hq : v / 256 % 256 ^ k < 256 ^ k := Nat.mod_lt _ (pow_pos (by norm_num) k)
    have hone : k + 1 - 1 - k = 0 := by omega
    rw [hone]
    simp only [pow_zero, Nat.div_one, pow_one]
    have key : v % 256 ^ (k + 1) = (v / 256 % 256 ^ k) * 256 + v % 256 := by
      conv_lhs => rw [hsplit]
      have hq2 : v / 256 = 256 ^ k * (v / 256 / 256 ^ k) + v / 256 % 256 ^ k :=
        (Nat.div_add_mod _ _).symm
      calc (256 * (v / 256) + v % 256) % 256 ^ (k + 1)
          = (256 * (256 ^ k * (v / 256 / 256 ^ k) + v / 256 % 256 ^ k) + v % 256) %
              256 ^ (k + 1) := by rw [← hq2]
        _ = (256 ^ (k + 1) * (v / 256 / 256 ^ k) +
              (256 * (v / 256 % 256 ^ k) + v % 256)) % 256 ^ (k + 1) := by
              congr 1; ring
        _ = (256 * (v / 256 % 256 ^ k) + v % 256) % 256 ^ (k + 1) := by
              rw [Nat.mul_add_mod]
        _ = (v / 256 % 256 ^ k) * 256 + v % 256 := by
              rw [Nat.mod_eq_of_lt]
              · ring
              · calc 256 * (v / 256 % 256 ^ k) + v % 256
                    < 256 * (v / 256 % 256 ^ k) + 256 := by omega
                  _ = 256 * (v / 256 % 256 ^ k + 1) := by ring
                  _ ≤ 256 * 256 ^ k := by
                      exact Nat.mul_le_mul_left _ (by omega)
                  _ = 256 ^ (k + 1) := by ring
    omega

theorem beSpec32_length (v : Nat) : (beSpec32 v).length = 32 := by
  simp [beSpec32]

theorem beSpec32_mem_lt (v : Nat) : ∀ b ∈ beSpec32 v, b < 256 := by
  intro b hb
  simp only [beSpec32, List.mem_map] at hb
  obtain ⟨i, _, rfl⟩ := hb
  exact Nat.mod_lt _ (by norm_num)

theorem fromBE_beSpec32 (v : Nat) (h : v < 2 ^ 256) :
    fromBE (beSpec32 v) = v := by
  have h256 : (256 : Nat) ^ 32 = 2 ^ 256 := by
    nth_rewrite 1 [show (256 : Nat) = 2 ^ 8 by norm_num]
    rw [← pow_mul]
  have := fromBE_digits_range 32 v
  unfold beSpec32
  rw [this, Nat.mod_eq_of_lt (by omega)]

/-- For values fitting in 32 bytes, `toBigEndian32` produces exactly the
canonical left-zero-padded 32-byte big-endian encoding. -/
theorem toBigEndian32_eq_beSpec32 (v : Nat) (h : v < 2 ^ 256) :
    toBigEndian32 v = beSpec32 v := by
  apply fromBE_inj
  · rw [toBigEndian32_length v h, beSpec32_length]
  · exact toBigEndian32_mem_lt v
  · exact beSpec32_mem_lt v
  · rw [fromBE_toBigEndian32 v h, fromBE_beSpec32 v h]

-- ─── Hex strings (lowercase) ─────────────────────────────────────

/-- The lowercase hex character for a digit value (`0`–`9`, `a`–`f`),
as produced by `Buffer.prototype.toString("hex")`. -/
def hexCharOfVal (d : Nat) : Char :=
  if d < 10 then Char.ofNat (48 + d) else Char.ofNat (87 + d)

/-- Digit value of a lowercase hex character (the decoding used by
`Buffer.from(s, "hex")` for the characters this encoder produces). -/
def hexValOfChar (c : Char) : Nat :=
  if c.toNat ≤ 57 then c.toNat - 48 else c.toNat - 87

/-- `Buffer.prototype.toString("hex")`: each byte becomes two lowercase
hex characters, high nibble first. -/
def bytesToHexString (bs : List Nat) : List Char :=
  bs.flatMap (fun b => [hexCharOfVal (b / 16), hexCharOfVal (b % 16)])

/-- `Buffer.from(s, "hex")` on a lowercase hex string: map characters to
digit values and pair them into bytes. -/
def decodeHexString (cs : List Char) : List Nat :=
  pairsToBytes (cs.map hexValOfChar)

/-- `BigInt("0x" + s)`: the numeric value of a hex-digit string, failing
on the empty string (JavaScript throws a `SyntaxError` on `BigInt("0x")`). -/
def parseHexBig (cs : List Char) : Option Nat :=
  if cs.isEmpty then none
  else some (fromHexDigits (cs.map hexValOfChar))

theorem hexValOfChar_hexCharOfVal (d : Nat) (h : d < 16) :
    hexValOfChar (hexCharOfVal d) = d := by
  interval_cases d <;> rfl

theorem decodeHexString_bytesToHexString (bs : List Nat)
    (h : ∀ b ∈ bs, b < 256) : decodeHexString (bytesToHexString bs) = bs := by
  induction bs with
  | nil => rfl
  | cons b rest ih =>
    have hb : b < 256 := h b (by simp)
    have h1 : b / 16 < 16 := by omega
    have h2 : b % 16 < 16 := Nat.mod_lt _ (by norm_num)
    simp only [bytesToHexString, List.flatMap_cons, List.cons_append, List.nil_append,
      decodeHexString, List.map_cons, List.map_append]
    rw [hexValOfChar_hexCharOfVal _ h1, hexValOfChar_hexCharOfVal _ h2]
    simp only [pairsToBytes]
    have : b / 16 * 16 + b % 16 = b := by omega
    rw [this]
    have ihr := ih (fun x hx => h x (by simp [hx]))
    simp only [bytesToHexString, decodeHexString] at ihr
    simp [ihr]

theorem bytesToHexString_length (bs : List Nat) :
    (bytesToHexString bs).length = 2 * bs.length := by
  induction bs with
  | nil => rfl
  | cons b rest ih =>
    simp only [bytesToHexString, List.flatMap_cons] at *
    simp only [List.length_append, List.length_cons, List.length_nil, ih]
    omega

theorem fromHexDigits_bytesToHexString (bs : List Nat)
    (h : ∀ b ∈ bs, b < 256) :
    fromHexDigits ((bytesToHexString bs).map hexValOfChar) = fromBE bs := by
  induction bs with
  | nil => rfl
  | cons b rest ih =>
    have hb : b < 256 := h b (by simp)
    have h1 : b / 16 < 16 := by omega
    have h2 : b % 16 < 16 := Nat.mod_lt _ (by norm_num)
    have ihr := ih (fun x hx => h x (by simp [hx]))
    have hsplit : bytesToHexString (b :: rest) =
        [hexCharOfVal (b / 16), hexCharOfVal (b % 16)] ++ bytesToHexString rest := by
      simp [bytesToHexString]
    rw [hsplit, List.map_append, fromHexDigits_append, ihr, fromBE_cons,
      List.length_map, bytesToHexString_length]
    have e1 : fromHexDigits ([hexCharOfVal (b / 16), hexCharOfVal (b % 16)].map
        hexValOfChar) = b := by
      simp only [List.map_cons, List.map_nil,
        hexValOfChar_hexCharOfVal _ h1, hexValOfChar_hexCharOfVal _ h2]
      simp [fromHexDigits]
      omega
    rw [e1]
    have e2 : (16 : Nat) ^ (2 * rest.length) = 256 ^ rest.length := by
      rw [pow_mul]
      norm_num
    rw [e2]

-- ─── Proof transcoder (`proofToSolana` / `proofToHex`) ───────────

/-- The raw Groth16 proof object produced by snarkjs: three points with
their coordinate components as (decimal-string) big integers.
`pi_a = [A.x, A.y]`, `pi_b = [[B.x.c0, B.x.c1], [B.y.c0, B.y.c1]]`,
`pi_c = [C.x, C.y]`. -/
structure RawProof where
  pi_a0 : Nat
  pi_a1 : Nat
  pi_b00 : Nat
  pi_b01 : Nat
  pi_b10 : Nat
  pi_b11 : Nat
  pi_c0 : Nat
  pi_c1 : Nat

/-- `proofToSolana`'s `proofA`:
`Buffer.concat([be(proof.pi_a[0]), negY(proof.pi_a[1])])` where
`negY(y) = toBigEndian32(BN254_FIELD - y)`. -/
def proofToSolanaA (p : RawProof) : List Nat :=
  toBigEndian32 p.pi_a0 ++ toBigEndian32 (BN254_FIELD - p.pi_a1)

/-- `proofToSolana`'s `proofB`: the four `B` components with the two
sub-field components swapped within each coordinate pair
(`pi_b[0][1], pi_b[0][0], pi_b[1][1], pi_b[1][0]`). -/
def proofToSolanaB (p : RawProof) : List Nat :=
  toBigEndian32 p.pi_b01 ++ toBigEndian32 p.pi_b00 ++
    toBigEndian32 p.pi_b11 ++ toBigEndian32 p.pi_b10

/-- `proofToSolana`'s `proofC`:
`Buffer.concat([be(proof.pi_c[0]), be(proof.pi_c[1])])`, no negation. -/
def proofToSolanaC (p : RawProof) : List Nat :=
  toBigEndian32 p.pi_c0 ++ toBigEndian32 p.pi_c1

/-- The full 256-byte on-chain encoding: `proofA ++ proofB ++ proofC`
as laid out by `proofToSolana` / consumed by `submitAnswer`. -/
def onChainEncoding (p : RawProof) : List Nat :=
  proofToSolanaA p ++ proofToSolanaB p ++ proofToSolanaC p

/-- `proofToHex`'s `proofA`: the same concatenation as `proofToSolana`'s
`proofA`, rendered as a lowercase hex string. -/
def proofToHexA (p : RawProof) : List Char :=
  bytesToHexString (toBigEndian32 p.pi_a0 ++ toBigEndian32 (BN254_FIELD - p.pi_a1))

/-- `proofToHex`'s `proofB`. -/
def proofToHexB (p : RawProof) : List Char :=
  bytesToHexString (toBigEndian32 p.pi_b01 ++ toBigEndian32 p.pi_b00 ++
    toBigEndian32 p.pi_b11 ++ toBigEndian32 p.pi_b10)

/-- `proofToHex`'s `proofC`. -/
def proofToHexC (p : RawProof) : List Char :=
  bytesToHexString (toBigEndian32 p.pi_c0 ++ toBigEndian32 p.pi_c1)

/-- Byte `k·32 .. k·32+31` segment of an encoding. -/
def seg32 (l : List Nat) (k : Nat) : List Nat :=
  (l.drop (32 * k)).take 32

-- ─── Field codec ─────────────────────────────────────────────────

/-- `answerToField` from `src/constants.ts`:
`BigInt("0x" + Buffer.from(answer, "utf-8").toString("hex")) % BN254_FIELD`.
The argument is the answer's UTF-8 byte list; the result is `none` when
the hex string is empty (i.e. the answer is the empty string), in which
case the JavaScript code throws. -/
def answerToField (utf8Bytes : List Nat) : Option Nat :=
  (parseHexBig (bytesToHexString utf8Bytes)).map (· % BN254_FIELD)

/-- `hashBytesToFieldStr` from `src/constants.ts` (the spec's
`digestToField`): `BigInt("0x" + Buffer.from(hashBytes).toString("hex"))`,
rendered as a decimal string for the circuit input.  Note: no reduction
modulo `BN254_FIELD` is performed. -/
def hashBytesToFieldStr (hashBytes : List Nat) : Option Nat :=
  parseHexBig (bytesToHexString hashBytes)

/-- `pubkeyToCircuitInputs` from `src/constants.ts` (the spec's
`pubkeyToFieldPair`): `lo` is the big-endian value of bytes 16–31 of the
32-byte key, `hi` the big-endian value of bytes 0–15. -/
def pubkeyToCircuitInputs (pubkeyBytes : List Nat) : Nat × Nat :=
  (fromHexDigits ((bytesToHexString (pubkeyBytes.drop 16)).map hexValOfChar),
   fromHexDigits ((bytesToHexString (pubkeyBytes.take 16)).map hexValOfChar))

-- ─── Segment arithmetic for 32-byte-aligned encodings ────────────

theorem seg32_append_zero (l rest : List Nat) (h : l.length = 32) :
    seg32 (l ++ rest) 0 = l := by
  unfold seg32
  rw [Nat.mul_zero, List.drop_zero, ← h, List.take_left]

theorem seg32_append_succ (l rest : List Nat) (h : l.length = 32) (k : Nat) :
    seg32 (l ++ rest) (k + 1) = seg32 rest k := by
  unfold seg32
  rw [show 32 * (k + 1) = 32 + 32 * k by ring, ← List.drop_drop, ← h,
    List.drop_left]

theorem seg32_self (l : List Nat) (h : l.length = 32) : seg32 l 0 = l := by
  unfold seg32
  rw [Nat.mul_zero, List.drop_zero, List.take_of_length_le (by omega)]

theorem BN254_FIELD_lt (v : Nat) (h : v ≤ BN254_FIELD) : v < 2 ^ 256 := by
  have : BN254_FIELD < 2 ^ 256 := by norm_num [BN254_FIELD]
  omega

/-- C1.  For a proof bundle of BN254 points (all coordinate components
below the field prime), the on-chain encoding produced by
`proofToSolana` is exactly 256 bytes: bytes 0–31 are the 32-byte
big-endian `A.x`; bytes 32–63 are the 32-byte big-endian
`BN254_FIELD - A.y` (the field negation, not raw `A.y`); bytes 64–191
are `B`'s two coordinate pairs with the two sub-field components
swapped within each pair; bytes 192–223 and 224–255 are `C.x` and `C.y`
un-negated; and every 32-byte value is the canonical left-zero-padded
big-endian encoding (`beSpec32`), never truncated. -/
theorem proofToSolana_layout (p : RawProof)
    (ha0 : p.pi_a0 < BN254_FIELD) (ha1 : p.pi_a1 < BN254_FIELD)
    (hb00 : p.pi_b00 < BN254_FIELD) (hb01 : p.pi_b01 < BN254_FIELD)
    (hb10 : p.pi_b10 < BN254_FIELD) (hb11 : p.pi_b11 < BN254_FIELD)
    (hc0 : p.pi_c0 < BN254_FIELD) (hc1 : p.pi_c1 < BN254_FIELD) :
    (onChainEncoding p).length = 256 ∧
    seg32 (onChainEncoding p) 0 = beSpec32 p.pi_a0 ∧
    seg32 (onChainEncoding p) 1 = beSpec32 (BN254_FIELD - p.pi_a1) ∧
    seg32 (onChainEncoding p) 2 = beSpec32 p.pi_b01 ∧
    seg32 (onChainEncoding p) 3 = beSpec32 p.pi_b00 ∧
    seg32 (onChainEncoding p) 4 = beSpec32 p.pi_b11 ∧
    seg32 (onChainEncoding p) 5 = beSpec32 p.pi_b10 ∧
    seg32 (onChainEncoding p) 6 = beSpec32 p.pi_c0 ∧
    seg32 (onChainEncoding p) 7 = beSpec32 p.pi_c1 := by
  have e : onChainEncoding p =
      toBigEndian32 p.pi_a0 ++ (toBigEndian32 (BN254_FIELD - p.pi_a1) ++
      (toBigEndian32 p.pi_b01 ++ (toBigEndian32 p.pi_b00 ++
      (toBigEndian32 p.pi_b11 ++ (toBigEndian32 p.pi_b10 ++
      (toBigEndian32 p.pi_c0 ++ toBigEndian32 p.pi_c1)))))) := by
    simp [onChainEncoding, proofToSolanaA, proofToSolanaB, proofToSolanaC]
  have l0 := toBigEndian32_length _ (BN254_FIELD_lt _ (le_of_lt ha0))
  have l1 := toBigEndian32_length (BN254_FIELD - p.pi_a1)
    (BN254_FIELD_lt _ (Nat.sub_le _ _))
  have l2 := toBigEndian32_length _ (BN254_FIELD_lt _ (le_of_lt hb01))
  have l3 := toBigEndian32_length _ (BN254_FIELD_lt _ (le_of_lt hb00))
  have l4 := toBigEndian32_length _ (BN254_FIELD_lt _ (le_of_lt hb11))
  have l5 := toBigEndian32_length _ (BN254_FIELD_lt _ (le_of_lt hb10))
  have l6 := toBigEndian32_length _ (BN254_FIELD_lt _ (le_of_lt hc0))
  have l7 := toBigEndian32_length _ (BN254_FIELD_lt _ (le_of_lt hc1))
  refine ⟨?_, ?_, ?_, ?_, ?_, ?_, ?_, ?_, ?_⟩
  · rw [e]
    simp only [List.length_append, l0, l1, l2, l3, l4, l5, l6, l7]
  · rw [e, seg32_append_zero _ _ l0,
      toBigEndian32_eq_beSpec32 _ (BN254_FIELD_lt _ (le_of_lt ha0))]
  · rw [e, seg32_append_succ _ _ l0, seg32_append_zero _ _ l1,
      toBigEndian32_eq_beSpec32 _ (BN254_FIELD_lt _ (Nat.sub_le _ _))]
  · rw [e, seg32_append_succ _ _ l0, seg32_append_succ _ _ l1,
      seg32_append_zero _ _ l2,
      toBigEndian32_eq_beSpec32 _ (BN254_FIELD_lt _ (le_of_lt hb01))]
  · rw [e, seg32_append_succ _ _ l0, seg32_append_succ _ _ l1,
      seg32_append_succ _ _ l2, seg32_append_zero _ _ l3,
      toBigEndian32_eq_beSpec32 _ (BN254_FIELD_lt _ (le_of_lt hb00))]
  · rw [e, seg32_append_succ _ _ l0, seg32_append_succ _ _ l1,
      seg32_append_succ _ _ l2, seg32_append_succ _ _ l3,
      seg32_append_zero _ _ l4,
      toBigEndian32_eq_beSpec32 _ (BN254_FIELD_lt _ (le_of_lt hb11))]
  · rw [e, seg32_append_succ _ _ l0, seg32_append_succ _ _ l1,
      seg32_append_succ _ _ l2, seg32_append_succ _ _ l3,
      seg32_append_succ _ _ l4, seg32_append_zero _ _ l5,
      toBigEndian32_eq_beSpec32 _ (BN254_FIELD_lt _ (le_of_lt hb10))]
  · rw [e, seg32_append_succ _ _ l0, seg32_append_succ _ _ l1,
      seg32_append_succ _ _ l2, seg32_append_succ _ _ l3,
      seg32_append_succ _ _ l4, seg32_append_succ _ _ l5,
      seg32_append_zero _ _ l6,
      toBigEndian32_eq_beSpec32 _ (BN254_FIELD_lt _ (le_of_lt hc0))]
  · rw [e, seg32_append_succ _ _ l0, seg32_append_succ _ _ l1,
      seg32_append_succ _ _ l2, seg32_append_succ _ _ l3,
      seg32_append_succ _ _ l4, seg32_append_succ _ _ l5,
      seg32_append_succ _ _ l6, seg32_self _ l7,
      toBigEndian32_eq_beSpec32 _ (BN254_FIELD_lt _ (le_of_lt hc1))]

/-- C1 witness: the layout theorem applied to a concrete bundle. -/
theorem proofToSolana_layout_witness :
    ((1 : Nat) < BN254_FIELD ∧ (2 : Nat) < BN254_FIELD ∧
     (3 : Nat) < BN254_FIELD ∧ (4 : Nat) < BN254_FIELD ∧
     (5 : Nat) < BN254_FIELD ∧ (6 : Nat) < BN254_FIELD ∧
     (7 : Nat) < BN254_FIELD ∧ (8 : Nat) < BN254_FIELD) ∧
    ((onChainEncoding ⟨1, 2, 3, 4, 5, 6, 7, 8⟩).length = 256 ∧
     seg32 (onChainEncoding ⟨1, 2, 3, 4, 5, 6, 7, 8⟩) 0 = beSpec32 1 ∧
     seg32 (onChainEncoding ⟨1, 2, 3, 4, 5, 6, 7, 8⟩) 1 =
       beSpec32 (BN254_FIELD - 2) ∧
     seg32 (onChainEncoding ⟨1, 2, 3, 4, 5, 6, 7, 8⟩) 2 = beSpec32 4 ∧
     seg32 (onChainEncoding ⟨1, 2, 3, 4, 5, 6, 7, 8⟩) 3 = beSpec32 3 ∧
     seg32 (onChainEncoding ⟨1, 2, 3, 4, 5, 6, 7, 8⟩) 4 = beSpec32 6 ∧
     seg32 (onChainEncoding ⟨1, 2, 3, 4, 5, 6, 7, 8⟩) 5 = beSpec32 5 ∧
     seg32 (onChainEncoding ⟨1, 2, 3, 4, 5, 6, 7, 8⟩) 6 = beSpec32 7 ∧
     seg32 (onChainEncoding ⟨1, 2, 3, 4, 5, 6, 7, 8⟩) 7 = beSpec32 8) :=
  ⟨⟨by norm_num [BN254_FIELD], by norm_num [BN254_FIELD],
    by norm_num [BN254_FIELD], by norm_num [BN254_FIELD],
    by norm_num [BN254_FIELD], by norm_num [BN254_FIELD],
    by norm_num [BN254_FIELD], by norm_num [BN254_FIELD]⟩,
   proofToSolana_layout ⟨1, 2, 3, 4, 5, 6, 7, 8⟩
    (by norm_num [BN254_FIELD]) (by norm_num [BN254_FIELD])
    (by norm_num [BN254_FIELD]) (by norm_num [BN254_FIELD])
    (by norm_num [BN254_FIELD]) (by norm_num [BN254_FIELD])
    (by norm_num [BN254_FIELD]) (by norm_num [BN254_FIELD])⟩

-- ─── C2: hex encoding round-trips to the on-chain bytes ──────────

theorem mem_append_lt256 (l₁ l₂ : List Nat) (h₁ : ∀ b ∈ l₁, b < 256)
    (h₂ : ∀ b ∈ l₂, b < 256) : ∀ b ∈ l₁ ++ l₂, b < 256 := by
  intro b hb
  rcases List.mem_append.mp hb with hb | hb
  · exact h₁ b hb
  · exact h₂ b hb

theorem proofToSolanaA_mem_lt (p : RawProof) :
    ∀ b ∈ proofToSolanaA p, b < 256 :=
  mem_append_lt256 _ _ (toBigEndian32_mem_lt _) (toBigEndian32_mem_lt _)

theorem proofToSolanaB_mem_lt (p : RawProof) :
    ∀ b ∈ proofToSolanaB p, b < 256 := by
  unfold proofToSolanaB
  exact mem_append_lt256 _ _
    (mem_append_lt256 _ _
      (mem_append_lt256 _ _ (toBigEndian32_mem_lt _) (toBigEndian32_mem_lt _))
      (toBigEndian32_mem_lt _))
    (toBigEndian32_mem_lt _)

theorem proofToSolanaC_mem_lt (p : RawProof) :
    ∀ b ∈ proofToSolanaC p, b < 256 :=
  mem_append_lt256 _ _ (toBigEndian32_mem_lt _) (toBigEndian32_mem_lt _)

theorem bytesToHexString_append (l₁ l₂ : List Nat) :
    bytesToHexString (l₁ ++ l₂) = bytesToHexString l₁ ++ bytesToHexString l₂ := by
  simp [bytesToHexString]

/-- C2.  The lowercase hex strings produced by `proofToHex` decode
byte-for-byte to exactly the bytes produced by `proofToSolana`: the two
encodings of one bundle represent an identical 256-byte proof. -/
theorem proofToHex_roundTrip (p : RawProof) :
    decodeHexString (proofToHexA p) = proofToSolanaA p ∧
    decodeHexString (proofToHexB p) = proofToSolanaB p ∧
    decodeHexString (proofToHexC p) = proofToSolanaC p ∧
    decodeHexString (proofToHexA p ++ proofToHexB p ++ proofToHexC p) =
      onChainEncoding p := by
  have hA : decodeHexString (proofToHexA p) = proofToSolanaA p :=
    decodeHexString_bytesToHexString _ (proofToSolanaA_mem_lt p)
  have hB : decodeHexString (proofToHexB p) = proofToSolanaB p := by
    have : proofToHexB p = bytesToHexString (proofToSolanaB p) := by
      simp [proofToHexB, proofToSolanaB]
    rw [this]
    exact decodeHexString_bytesToHexString _ (proofToSolanaB_mem_lt p)
  have hC : decodeHexString (proofToHexC p) = proofToSolanaC p :=
    decodeHexString_bytesToHexString _ (proofToSolanaC_mem_lt p)
  refine ⟨hA, hB, hC, ?_⟩
  have e : proofToHexA p ++ proofToHexB p ++ proofToHexC p =
      bytesToHexString (onChainEncoding p) := by
    simp [proofToHexA, proofToHexB, proofToHexC, onChainEncoding,
      proofToSolanaA, proofToSolanaB, proofToSolanaC, bytesToHexString_append]
  rw [e]
  exact decodeHexString_bytesToHexString _
    (mem_append_lt256 _ _
      (mem_append_lt256 _ _ (proofToSolanaA_mem_lt p) (proofToSolanaB_mem_lt p))
      (proofToSolanaC_mem_lt p))

-- ─── C5 / C9: field codec behaviour ──────────────────────────────

theorem bytesToHexString_ne_nil (bs : List Nat) (h : bs ≠ []) :
    (bytesToHexString bs).isEmpty = false := by
  match bs, h with
  | b :: rest, _ =>
    simp [bytesToHexString, List.flatMap_cons]

/-- The digest-to-field conversion performs no modular reduction: for a
non-empty digest it returns the digest's big-endian integer value as-is
(which may be `≥ BN254_FIELD`). -/
theorem hashBytesToFieldStr_eq_fromBE (bs : List Nat) (hne : bs ≠ [])
    (h : ∀ b ∈ bs, b < 256) :
    hashBytesToFieldStr bs = some (fromBE bs) := by
  unfold hashBytesToFieldStr parseHexBig
  rw [bytesToHexString_ne_nil bs hne]
  simp only [Bool.false_eq_true, if_false]
  rw [fromHexDigits_bytesToHexString bs h]

/-- C5 counterexample: the all-`0xff` 32-byte digest has integer value
`2^256 - 1 ≥ BN254_FIELD`, and `hashBytesToFieldStr` returns it
unreduced — the result is not strictly less than the field prime. -/
theorem hashBytesToFieldStr_not_reduced :
    hashBytesToFieldStr (List.replicate 32 255) = some (2 ^ 256 - 1) ∧
    ¬(2 ^ 256 - 1 < BN254_FIELD) := by
  constructor
  · decide
  · norm_num [BN254_FIELD]

/-- C5 witness: a concrete 32-byte digest evaluated through the
no-reduction theorem. -/
theorem hashBytesToFieldStr_eq_fromBE_witness :
    (List.replicate 32 (7 : Nat) ≠ [] ∧
      ∀ b ∈ List.replicate 32 (7 : Nat), b < 256) ∧
    hashBytesToFieldStr (List.replicate 32 7) =
      some (fromBE (List.replicate 32 7)) :=
  ⟨⟨by decide, by decide⟩,
   hashBytesToFieldStr_eq_fromBE (List.replicate 32 7) (by decide) (by decide)⟩

/-- The amended C9: for every non-empty answer, `answerToField` returns
the UTF-8 bytes interpreted as a big-endian integer reduced modulo
`BN254_FIELD`; on the empty answer the hex parse fails (the JavaScript
code throws), so the reduction is not total. -/
theorem answerToField_eq (bs : List Nat) (hne : bs ≠ [])
    (h : ∀ b ∈ bs, b < 256) :
    answerToField bs = some (fromBE bs % BN254_FIELD) := by
  unfold answerToField parseHexBig
  rw [bytesToHexString_ne_nil bs hne]
  simp only [Bool.false_eq_true, if_false]
  rw [fromHexDigits_bytesToHexString bs h]
  rfl

/-- C9 counterexample: on the empty string (empty UTF-8 byte list)
`answerToField` does not succeed — `BigInt("0x")` throws, modelled as
`none` — refuting totality over all strings. -/
theorem answerToField_empty_fails : answerToField [] = none := rfl

/-- C9 witness: the amended theorem evaluated at the UTF-8 bytes of
`"hi"`. -/
theorem answerToField_eq_witness :
    (([104, 105] : List Nat) ≠ [] ∧ ∀ b ∈ ([104, 105] : List Nat), b < 256) ∧
    answerToField [104, 105] = some (fromBE [104, 105] % BN254_FIELD) :=
  ⟨⟨by decide, by decide⟩, answerToField_eq [104, 105] (by decide) (by decide)⟩

-- ─── C10: public-key limb split ──────────────────────────────────

theorem pubkeyToCircuitInputs_lo (b : List Nat) (hlen : b.length = 32)
    (hb : ∀ x ∈ b, x < 256) :
    (pubkeyToCircuitInputs b).1 = fromBE (b.drop 16) :=
  fromHexDigits_bytesToHexString (b.drop 16)
    (fun x hx => hb x (List.mem_of_mem_drop hx))

theorem pubkeyToCircuitInputs_hi (b : List Nat) (hlen : b.length = 32)
    (hb : ∀ x ∈ b, x < 256) :
    (pubkeyToCircuitInputs b).2 = fromBE (b.take 16) :=
  fromHexDigits_bytesToHexString (b.take 16)
    (fun x hx => hb x (List.mem_of_mem_take hx))

/-- C10.  `pubkeyToCircuitInputs` splits the 32-byte key at the 16-byte
boundary: `lo` is the big-endian value of the low (last) 16 bytes, `hi`
of the high (first) 16 bytes, so that the full key's value is
`hi · 2^128 + lo`; both limbs are strictly below `BN254_FIELD`; and the
map into `(lo, hi)` pairs is injective over 32-byte keys. -/
theorem pubkeyToCircuitInputs_spec (b : List Nat) (hlen : b.length = 32)
    (hb : ∀ x ∈ b, x < 256) :
    (pubkeyToCircuitInputs b).1 = fromBE (b.drop 16) ∧
    (pubkeyToCircuitInputs b).2 = fromBE (b.take 16) ∧
    fromBE b = (pubkeyToCircuitInputs b).2 * 2 ^ 128 +
      (pubkeyToCircuitInputs b).1 ∧
    (pubkeyToCircuitInputs b).1 < BN254_FIELD ∧
    (pubkeyToCircuitInputs b).2 < BN254_FIELD ∧
    (∀ b' : List Nat, b'.length = 32 → (∀ x ∈ b', x < 256) →
      pubkeyToCircuitInputs b = pubkeyToCircuitInputs b' → b = b') := by
  have hdlen : (b.drop 16).length = 16 := by rw [List.length_drop, hlen]
  have htlen : (b.take 16).length = 16 := by
    rw [List.length_take]
    omega
  have hdb : ∀ x ∈ b.drop 16, x < 256 := fun x hx => hb x (List.mem_of_mem_drop hx)
  have htb : ∀ x ∈ b.take 16, x < 256 := fun x hx => hb x (List.mem_of_mem_take hx)
  have hlo := pubkeyToCircuitInputs_lo b hlen hb
  have hhi := pubkeyToCircuitInputs_hi b hlen hb
  have hpow : (256 : Nat) ^ 16 = 2 ^ 128 := by
    nth_rewrite 1 [show (256 : Nat) = 2 ^ 8 by norm_num]
    rw [← pow_mul]
  have hlim : (2 : Nat) ^ 128 < BN254_FIELD := by norm_num [BN254_FIELD]
  refine ⟨hlo, hhi, ?_, ?_, ?_, ?_⟩
  · conv_lhs => rw [← List.take_append_drop 16 b]
    rw [fromBE_append, hdlen, hlo, hhi, hpow]
  · rw [hlo]
    have := fromBE_lt (b.drop 16) hdb
    rw [hdlen, hpow] at this
    omega
  · rw [hhi]
    have := fromBE_lt (b.take 16) htb
    rw [htlen, hpow] at this
    omega
  · intro b' hlen' hb' heq
    have hdlen' : (b'.drop 16).length = 16 := by rw [List.length_drop, hlen']
    have htlen' : (b'.take 16).length = 16 := by
      rw [List.length_take]
      omega
    have hdb' : ∀ x ∈ b'.drop 16, x < 256 :=
      fun x hx => hb' x (List.mem_of_mem_drop hx)
    have htb' : ∀ x ∈ b'.take 16, x < 256 :=
      fun x hx => hb' x (List.mem_of_mem_take hx)
    have hlo' := pubkeyToCircuitInputs_lo b' hlen' hb'
    have hhi' := pubkeyToCircuitInputs_hi b' hlen' hb'
    have h1 : (pubkeyToCircuitInputs b).1 = (pubkeyToCircuitInputs b').1 := by
      rw [heq]
    have h2 : (pubkeyToCircuitInputs b).2 = (pubkeyToCircuitInputs b').2 := by
      rw [heq]
    rw [hlo, hlo'] at h1
    rw [hhi, hhi'] at h2
    have hd : b.drop 16 = b'.drop 16 :=
      fromBE_inj _ _ (by rw [hdlen, hdlen']) hdb hdb' h1
    have ht : b.take 16 = b'.take 16 :=
      fromBE_inj _ _ (by rw [htlen, htlen']) htb htb' h2
    calc b = b.take 16 ++ b.drop 16 := (List.take_append_drop 16 b).symm
      _ = b'.take 16 ++ b'.drop 16 := by rw [hd, ht]
      _ = b' := List.take_append_drop 16 b'

/-- C10 witness: the split theorem applied to the 32-byte key
`[1, 2, …, 32]`. -/
theorem pubkeyToCircuitInputs_spec_witness :
    (((List.range 32).map (· + 1)).length = 32 ∧
      ∀ x ∈ (List.range 32).map (· + 1), x < 256) ∧
    ((pubkeyToCircuitInputs ((List.range 32).map (· + 1))).1 =
        fromBE (((List.range 32).map (· + 1)).drop 16) ∧
     (pubkeyToCircuitInputs ((List.range 32).map (· + 1))).2 =
        fromBE (((List.range 32).map (· + 1)).take 16) ∧
     fromBE ((List.range 32).map (· + 1)) =
        (pubkeyToCircuitInputs ((List.range 32).map (· + 1))).2 * 2 ^ 128 +
          (pubkeyToCircuitInputs ((List.range 32).map (· + 1))).1 ∧
     (pubkeyToCircuitInputs ((List.range 32).map (· + 1))).1 < BN254_FIELD ∧
     (pubkeyToCircuitInputs ((List.range 32).map (· + 1))).2 < BN254_FIELD ∧
     (∀ b' : List Nat, b'.length = 32 → (∀ x ∈ b', x < 256) →
        pubkeyToCircuitInputs ((List.range 32).map (· + 1)) =
          pubkeyToCircuitInputs b' →
        (List.range 32).map (· + 1) = b')) :=
  ⟨⟨by decide, by decide⟩,
   pubkeyToCircuitInputs_spec ((List.range 32).map (· + 1))
    (by decide) (by decide)⟩

-- ─── Quest state reader and submission router ────────────────────

/-- `hasAnswered` from `src/constants.ts`: fetch the caller's
winner-record; if the fetch throws (record absent) return `false`,
otherwise compare the stored `round` with the current round. -/
def hasAnswered (record : Option Nat) (currentRound : Nat) : Bool :=
  match record with
  | none => false
  | some r => r == currentRound

/-- The relay's HTTP response as observed by `submitAnswerViaRelay`:
`ok`/`status` from the fetch response, `error`/`txHash` from the JSON
body. -/
structure RelayResponse where
  ok : Bool
  status : Nat
  error : Option String
  txHash : String

/-- `submitAnswerViaRelay` from `src/constants.ts`: on a non-ok
response, throw carrying `data.error ?? "HTTP <status>"`; otherwise
return `data.txHash`. -/
def submitAnswerViaRelay (r : RelayResponse) : Except String String :=
  if r.ok = false then
    Except.error ("Relay submission failed: " ++
      r.error.getD ("HTTP " ++ toString r.status))
  else
    Except.ok r.txHash

/-- Terminal outcomes of one `quest answer` invocation
(`handleQuestAnswer` in `src/cli/commands/swap.ts`). -/
inductive SubmitOutcome where
  | notActive
  | expiredBeforeProof
  | alreadyAnswered
  | proofFailed
  | expiredDuringProof
  | relayFailed (msg : String)
  | relaySubmitted (txHash : String)
  | directFailed
  | directSubmitted (signature : String)
  deriving Repr, DecidableEq

/-- The external observations consumed by one submission attempt:
the fetched pool state (`active`, `round`, `deadline`), the clock at
fetch time (`now0`) and after proving (`nowAfterProof`), the caller's
winner-record round (if the account exists), whether the prover
succeeds, the chosen path, and the responses of the two submission
backends. -/
structure SubmitEnv where
  active : Bool
  round : Nat
  deadline : Int
  now0 : Int
  record : Option Nat
  proveOk : Bool
  nowAfterProof : Int
  relay : Bool
  relayResp : RelayResponse
  directOk : Bool
  directSig : String

/-- What one run of `handleQuestAnswer` did: its terminal outcome,
whether `generateProof` was invoked, whether a submission was
dispatched (direct or relay), and whether the reward poll
(`handleReward` / `parseQuestReward`) ran. -/
structure SubmitTrace where
  outcome : SubmitOutcome
  proverInvoked : Bool
  dispatched : Bool
  polled : Bool
  deriving Repr, DecidableEq

/-- `handleQuestAnswer` from `src/cli/commands/swap.ts`: fetch quest
info (its `expired` flag is `deadline - now ≤ 0` computed at fetch
time), reject inactive/expired rounds, short-circuit when
`hasAnswered`, generate the proof, re-check the deadline
(`nowAfterProof >= quest.deadline`), then dispatch to the relay or
direct path and poll the reward on success. -/
def handleQuestAnswer (e : SubmitEnv) : SubmitTrace :=
  if e.active = false then ⟨.notActive, false, false, false⟩
  else if e.deadline - e.now0 ≤ 0 then ⟨.expiredBeforeProof, false, false, false⟩
  else if hasAnswered e.record e.round then ⟨.alreadyAnswered, false, false, false⟩
  else if e.proveOk = false then ⟨.proofFailed, true, false, false⟩
  else if e.deadline ≤ e.nowAfterProof then ⟨.expiredDuringProof, true, false, false⟩
  else if e.relay then
    match submitAnswerViaRelay e.relayResp with
    | Except.error m => ⟨.relayFailed m, true, true, false⟩
    | Except.ok tx => ⟨.relaySubmitted tx, true, true, true⟩
  else if e.directOk then ⟨.directSubmitted e.directSig, true, true, true⟩
  else ⟨.directFailed, true, true, false⟩

/-- C3.  An active round whose deadline has passed at fetch time is
rejected as expired before the prover is ever invoked; and when the
prover was invoked and completed but the round expired during proving,
the second deadline check rejects the attempt before dispatching to
either submission path. -/
theorem deadline_checked_before_and_after_proving (e : SubmitEnv) :
    (e.active = true → e.now0 ≥ e.deadline →
      (handleQuestAnswer e).outcome = SubmitOutcome.expiredBeforeProof ∧
      (handleQuestAnswer e).proverInvoked = false) ∧
    ((handleQuestAnswer e).proverInvoked = true → e.proveOk = true →
      e.nowAfterProof ≥ e.deadline →
      (handleQuestAnswer e).outcome = SubmitOutcome.expiredDuringProof ∧
      (handleQuestAnswer e).dispatched = false ∧
      (handleQuestAnswer e).polled = false) := by
  unfold handleQuestAnswer
  constructor
  · intro hact hexp
    have h1 : ¬(e.active = false) := by simp [hact]
    have h2 : e.deadline - e.now0 ≤ 0 := by omega
    simp [h1, h2]
  · intro hinv hok hexp
    have h4 : ¬(e.proveOk = false) := by simp [hok]
    have h5 : e.deadline ≤ e.nowAfterProof := by omega
    by_cases h1 : e.active = false
    · simp [h1] at hinv ⊢
    · by_cases h2 : e.deadline - e.now0 ≤ 0
      · simp [h1, h2] at hinv ⊢
      · by_cases h3 : hasAnswered e.record e.round
        · simp [h1, h2, h3] at hinv ⊢
        · simp [h1, h2, h3, h4, h5]

/-- C3 witness: a concrete expired-at-fetch attempt and a concrete
expired-during-proving attempt. -/
theorem deadline_checked_witness :
    ((true : Bool) = true ∧ (5 : Int) ≥ 3 ∧
      (handleQuestAnswer ⟨true, 1, 3, 5, none, true, 0, false,
        ⟨true, 200, none, "t"⟩, true, "s"⟩).outcome =
          SubmitOutcome.expiredBeforeProof ∧
      (handleQuestAnswer ⟨true, 1, 3, 5, none, true, 0, false,
        ⟨true, 200, none, "t"⟩, true, "s"⟩).proverInvoked = false) ∧
    ((handleQuestAnswer ⟨true, 1, 100, 5, none, true, 200, false,
        ⟨true, 200, none, "t"⟩, true, "s"⟩).proverInvoked = true ∧
      (handleQuestAnswer ⟨true, 1, 100, 5, none, true, 200, false,
        ⟨true, 200, none, "t"⟩, true, "s"⟩).outcome =
          SubmitOutcome.expiredDuringProof ∧
      (handleQuestAnswer ⟨true, 1, 100, 5, none, true, 200, false,
        ⟨true, 200, none, "t"⟩, true, "s"⟩).dispatched = false ∧
      (handleQuestAnswer ⟨true, 1, 100, 5, none, true, 200, false,
        ⟨true, 200, none, "t"⟩, true, "s"⟩).polled = false) := by
  constructor
  · refine ⟨rfl, by norm_num, ?_⟩
    have := (deadline_checked_before_and_after_proving
      ⟨true, 1, 3, 5, none, true, 0, false, ⟨true, 200, none, "t"⟩,
        true, "s"⟩).1 rfl (by norm_num)
    exact this
  · have hinv : (handleQuestAnswer ⟨true, 1, 100, 5, none, true, 200, false,
        ⟨true, 200, none, "t"⟩, true, "s"⟩).proverInvoked = true := by decide
    have := (deadline_checked_before_and_after_proving
      ⟨true, 1, 100, 5, none, true, 200, false, ⟨true, 200, none, "t"⟩,
        true, "s"⟩).2 hinv rfl (by norm_num)
    exact ⟨hinv, this.1, this.2.1, this.2.2⟩

/-- C6.  When the stored winner-record's round equals the live round's
round, the submission attempt terminates as already-answered without
invoking the prover; `hasAnswered` is `false` when no record exists
(absence is not an error) and `true` exactly when the stored round
equals the current round. -/
theorem alreadyAnswered_shortCircuit (e : SubmitEnv)
    (hrec : e.record = some e.round)
    (hact : e.active = true) (hlive : e.now0 < e.deadline) :
    (handleQuestAnswer e).outcome = SubmitOutcome.alreadyAnswered ∧
    (handleQuestAnswer e).proverInvoked = false ∧
    (handleQuestAnswer e).dispatched = false ∧
    (∀ r : Nat, hasAnswered none r = false) ∧
    (∀ s r : Nat, hasAnswered (some s) r = true ↔ s = r) := by
  have h1 : ¬(e.active = false) := by simp [hact]
  have h2 : ¬(e.deadline - e.now0 ≤ 0) := by omega
  have h3 : hasAnswered e.record e.round = true := by
    rw [hrec]
    simp [hasAnswered]
  unfold handleQuestAnswer
  simp only [h1, h2, h3, if_false, if_true]
  refine ⟨rfl, rfl, rfl, fun r => rfl, fun s r => ?_⟩
  simp [hasAnswered]

/-- C6 witness: a prior record for round 7 and a live round 7. -/
theorem alreadyAnswered_shortCircuit_witness :
    ((some (7 : Nat) = some (7 : Nat)) ∧ (true : Bool) = true ∧
      (5 : Int) < 100) ∧
    ((handleQuestAnswer ⟨true, 7, 100, 5, some 7, true, 6, false,
        ⟨true, 200, none, "t"⟩, true, "s"⟩).outcome =
          SubmitOutcome.alreadyAnswered ∧
      (handleQuestAnswer ⟨true, 7, 100, 5, some 7, true, 6, false,
        ⟨true, 200, none, "t"⟩, true, "s"⟩).proverInvoked = false ∧
      (handleQuestAnswer ⟨true, 7, 100, 5, some 7, true, 6, false,
        ⟨true, 200, none, "t"⟩, true, "s"⟩).dispatched = false ∧
      (∀ r : Nat, hasAnswered none r = false) ∧
      (∀ s r : Nat, hasAnswered (some s) r = true ↔ s = r)) :=
  ⟨⟨rfl, rfl, by norm_num⟩,
   alreadyAnswered_shortCircuit
    ⟨true, 7, 100, 5, some 7, true, 6, false, ⟨true, 200, none, "t"⟩,
      true, "s"⟩ rfl rfl (by norm_num)⟩

/-- C7.  A non-success relay response fails with the relay error
carrying the relay's reported message when present and otherwise the
HTTP status; no transaction id is produced and the reward poll never
runs.  A success response returns the relay's `txHash` as the
transaction id. -/
theorem relay_response_handling (r : RelayResponse) (e : SubmitEnv) :
    (r.ok = false →
      submitAnswerViaRelay r = Except.error
        ("Relay submission failed: " ++
          r.error.getD ("HTTP " ++ toString r.status)) ∧
      (∀ tx, submitAnswerViaRelay r ≠ Except.ok tx) ∧
      (e.relayResp = r → e.relay = true →
        (handleQuestAnswer e).polled = false ∧
        ∀ tx, (handleQuestAnswer e).outcome ≠ SubmitOutcome.relaySubmitted tx)) ∧
    (r.ok = true → submitAnswerViaRelay r = Except.ok r.txHash) := by
  constructor
  · intro hok
    have hsub : submitAnswerViaRelay r = Except.error
        ("Relay submission failed: " ++
          r.error.getD ("HTTP " ++ toString r.status)) := by
      unfold submitAnswerViaRelay
      simp [hok]
    refine ⟨hsub, ?_, ?_⟩
    · intro tx
      rw [hsub]
      intro hcontra
      exact Except.noConfusion hcontra
    · intro hresp hrel
      unfold handleQuestAnswer
      by_cases h1 : e.active = false
      · simp [h1]
      · by_cases h2 : e.deadline - e.now0 ≤ 0
        · simp [h1, h2]
        · by_cases h3 : hasAnswered e.record e.round
          · simp [h1, h2, h3]
          · by_cases h4 : e.proveOk = false
            · simp [h1, h2, h3, h4]
            · by_cases h5 : e.deadline ≤ e.nowAfterProof
              · simp [h1, h2, h3, h4, h5]
              · simp only [h1, h2, h3, h4, h5, hrel, if_false, if_true,
                  Bool.false_eq_true]
                rw [hresp, hsub]
                exact ⟨rfl, fun tx => by simp⟩
  · intro hok
    unfold submitAnswerViaRelay
    simp [hok]

/-- C7 witness: the spec scenario — HTTP 400 with body
`{error: "pool exhausted"}` — yields the relay error carrying
`"pool exhausted"`, no transaction id, and no reward poll; and a
success response returns its `txHash`. -/
theorem relay_response_handling_witness :
    (submitAnswerViaRelay ⟨false, 400, some "pool exhausted", ""⟩ =
        Except.error "Relay submission failed: pool exhausted" ∧
      (∀ tx, submitAnswerViaRelay ⟨false, 400, some "pool exhausted", ""⟩ ≠
        Except.ok tx) ∧
      (handleQuestAnswer ⟨true, 1, 100, 5, none, true, 6, true,
        ⟨false, 400, some "pool exhausted", ""⟩, true, "s"⟩).polled = false ∧
      (∀ tx, (handleQuestAnswer ⟨true, 1, 100, 5, none, true, 6, true,
        ⟨false, 400, some "pool exhausted", ""⟩, true, "s"⟩).outcome ≠
          SubmitOutcome.relaySubmitted tx)) ∧
    submitAnswerViaRelay ⟨true, 200, none, "0xabc"⟩ = Except.ok "0xabc" := by
  have h := relay_response_handling ⟨false, 400, some "pool exhausted", ""⟩
    ⟨true, 1, 100, 5, none, true, 6, true,
      ⟨false, 400, some "pool exhausted", ""⟩, true, "s"⟩
  have h1 := h.1 rfl
  have h2 := h1.2.2 rfl rfl
  have hok := (relay_response_handling ⟨true, 200, none, "0xabc"⟩
    ⟨true, 1, 100, 5, none, true, 6, true,
      ⟨false, 400, some "pool exhausted", ""⟩, true, "s"⟩).2 rfl
  exact ⟨⟨h1.1, h1.2.1, h2.1, h2.2⟩, hok⟩

-- ─── C4: reward extraction from inner instructions ───────────────

/-- One (inner) instruction of a fetched transaction:
`programIdIndex` and `accounts` index into the transaction's account
keys; `dataBytes` is the base64-decoded instruction data. -/
structure InnerIx where
  programIdIndex : Nat
  dataBytes : List Nat
  accounts : List Nat

/-- The parts of a fetched transaction consumed by `parseReward`:
the account-key table and the inner-instruction groups
(`meta.innerInstructions`). -/
structure TxInfo where
  accountKeys : List String
  innerInstructions : List (List InnerIx)

/-- The system program's address
(`"11111111111111111111111111111111"`). -/
def SYSTEM_PROGRAM_ID : String := "11111111111111111111111111111111"

/-- `data.readUInt32LE(off)`. -/
def readUInt32LE (bs : List Nat) (off : Nat) : Nat :=
  bs.getD off 0 + bs.getD (off + 1) 0 * 256 +
    bs.getD (off + 2) 0 * 256 ^ 2 + bs.getD (off + 3) 0 * 256 ^ 3

/-- `data.readBigUInt64LE(off)`. -/
def readUInt64LE (bs : List Nat) (off : Nat) : Nat :=
  bs.getD off 0 + bs.getD (off + 1) 0 * 256 +
    bs.getD (off + 2) 0 * 256 ^ 2 + bs.getD (off + 3) 0 * 256 ^ 3 +
    bs.getD (off + 4) 0 * 256 ^ 4 + bs.getD (off + 5) 0 * 256 ^ 5 +
    bs.getD (off + 6) 0 * 256 ^ 6 + bs.getD (off + 7) 0 * 256 ^ 7

/-- The lamports one inner instruction contributes in `parseReward`'s
scan: a system-program instruction whose data is a Transfer
(discriminant 2, length ≥ 12) and whose destination account
(`accounts[1]`) resolves to the caller's address contributes its
lamports; everything else (foreign program, non-transfer data, missing
or foreign destination) contributes 0. -/
def ixReward (keys : List String) (user : String) (ix : InnerIx) : Nat :=
  match keys[ix.programIdIndex]? with
  | none => 0
  | some pid =>
    if pid = SYSTEM_PROGRAM_ID then
      if ix.dataBytes.length ≥ 12 ∧ readUInt32LE ix.dataBytes 0 = 2 then
        match ix.accounts[1]? with
        | none => 0
        | some destIdx =>
          match keys[destIdx]? with
          | none => 0
          | some dest => if dest = user then readUInt64LE ix.dataBytes 4 else 0
      else 0
    else 0

/-- `parseReward` from `src/cli/commands/swap.ts`: the nested
`for`-loop over `meta.innerInstructions`, accumulating
`rewardLamports += lamports` for each matching transfer. -/
def parseRewardLamports (tx : TxInfo) (user : String) : Nat :=
  tx.innerInstructions.foldl
    (fun acc inner =>
      inner.foldl (fun a ix => a + ixReward tx.accountKeys user ix) acc)
    0

/-- The decision `parseReward` reports: rewarded iff the accumulated
lamports are positive, with the accumulated amount. -/
def parseReward (tx : TxInfo) (user : String) : Bool × Nat :=
  (decide (0 < parseRewardLamports tx user), parseRewardLamports tx user)

/-- Predicate from the spec's words: an inner instruction is a matching
transfer when it is a system-program native transfer whose destination
equals the caller's identity. -/
def isMatchingTransfer (keys : List String) (user : String) (ix : InnerIx) : Bool :=
  (keys[ix.programIdIndex]? = some SYSTEM_PROGRAM_ID) ∧
    ix.dataBytes.length ≥ 12 ∧ readUInt32LE ix.dataBytes 0 = 2 ∧
    ((ix.accounts[1]?).bind (fun i => keys[i]?) = some user)

theorem foldl_add_eq_sum_map {α : Type} (g : α → Nat) (l : List α) (acc : Nat) :
    l.foldl (fun a x => a + g x) acc = acc + (l.map g).sum := by
  induction l generalizing acc with
  | nil => simp
  | cons x rest ih =>
    simp only [List.foldl_cons, List.map_cons, List.sum_cons, ih]
    omega

theorem ixReward_eq_if (keys : List String) (user : String) (ix : InnerIx) :
    ixReward keys user ix =
      if isMatchingTransfer keys user ix then readUInt64LE ix.dataBytes 4
      else 0 := by
  unfold ixReward isMatchingTransfer
  cases hpid : keys[ix.programIdIndex]? with
  | none => simp [hpid]
  | some pid =>
    by_cases hsys : pid = SYSTEM_PROGRAM_ID
    · subst hsys
      by_cases hdata : ix.dataBytes.length ≥ 12 ∧ readUInt32LE ix.dataBytes 0 = 2
      · cases hdest : ix.accounts[1]? with
        | none => simp [hpid, hdata, hdest]
        | some destIdx =>
          cases hkey : keys[destIdx]? with
          | none => simp [hpid, hdata, hdest, hkey]
          | some dest =>
            by_cases huser : dest = user
            · simp [hpid, hdata, hdest, hkey, huser]
            · simp [hpid, hdata, hdest, hkey, huser]
      · simp only [hpid, if_true, hdata, if_false]
        rw [if_neg]
        simp only [decide_eq_true_eq]
        rintro ⟨_, h2, h3, _⟩
        exact hdata ⟨h2, h3⟩
    · simp only [hpid, hsys, if_false]
      rw [if_neg]
      simp only [decide_eq_true_eq]
      rintro ⟨hcontra, _⟩
      exact hsys (Option.some.inj hcontra)

theorem map_sum_eq_filter_sum (keys : List String) (user : String)
    (l : List InnerIx) :
    (l.map (ixReward keys user)).sum =
      ((l.filter (isMatchingTransfer keys user)).map
        (fun ix => readUInt64LE ix.dataBytes 4)).sum := by
  induction l with
  | nil => rfl
  | cons ix rest ih =>
    by_cases hm : isMatchingTransfer keys user ix
    · simp only [List.map_cons, List.sum_cons, List.filter_cons, hm, if_true,
        ih, ixReward_eq_if]
    · simp only [List.map_cons, List.sum_cons, List.filter_cons, hm,
        Bool.false_eq_true, if_false, ih, ixReward_eq_if]
      simp [hm]

theorem nested_foldl_eq (keys : List String) (user : String) :
    ∀ (L : List (List InnerIx)) (a : Nat),
      L.foldl (fun acc inner =>
        inner.foldl (fun x ix => x + ixReward keys user ix) acc) a =
      a + (L.flatten.map (ixReward keys user)).sum := by
  intro L
  induction L with
  | nil => intro a; simp
  | cons x xs ih =>
    intro a
    simp only [List.foldl_cons, List.flatten_cons, List.map_append,
      List.sum_append]
    rw [foldl_add_eq_sum_map, ih]
    omega

/-- C4.  `parseReward` scans every nested/inner instruction, selects
exactly the system-program transfers whose destination is the caller's
identity, and reports the sum of their amounts with
`rewarded = sum > 0`; on a transaction with nested transfers of 500 and
300 to the caller and 1000 to another address it yields
`(true, 800)`. -/
theorem parseReward_spec (tx : TxInfo) (user : String) :
    parseRewardLamports tx user =
      ((tx.innerInstructions.flatten.filter
        (isMatchingTransfer tx.accountKeys user)).map
          (fun ix => readUInt64LE ix.dataBytes 4)).sum ∧
    ((parseReward tx user).1 = true ↔
      0 < ((tx.innerInstructions.flatten.filter
        (isMatchingTransfer tx.accountKeys user)).map
          (fun ix => readUInt64LE ix.dataBytes 4)).sum) ∧
    (parseReward tx user).2 = parseRewardLamports tx user ∧
    parseReward
      ⟨["sys-or-other", "11111111111111111111111111111111", "caller", "other"],
       [[⟨1, [2, 0, 0, 0, 244, 1, 0, 0, 0, 0, 0, 0], [0, 2]⟩,
         ⟨1, [2, 0, 0, 0, 44, 1, 0, 0, 0, 0, 0, 0], [0, 2]⟩],
        [⟨1, [2, 0, 0, 0, 232, 3, 0, 0, 0, 0, 0, 0], [0, 3]⟩]]⟩
      "caller" = (true, 800) := by
  have hfold : parseRewardLamports tx user =
      ((tx.innerInstructions.flatten.filter
        (isMatchingTransfer tx.accountKeys user)).map
          (fun ix => readUInt64LE ix.dataBytes 4)).sum := by
    unfold parseRewardLamports
    rw [nested_foldl_eq, map_sum_eq_filter_sum]
    omega
  refine ⟨hfold, ?_, rfl, by decide⟩
  unfold parseReward
  rw [hfold]
  simp

-- ─── C8: confirmation poller ─────────────────────────────────────

/-- One fetched signature status (`getSignatureStatuses` value entry):
an optional execution error and the confirmation level string. -/
structure SigStatus where
  err : Option String
  confirmationStatus : String

/-- The status check in `pollConfirmation`:
`confirmationStatus === "confirmed" || confirmationStatus === "finalized"`. -/
def isFinalStatus (st : SigStatus) : Bool :=
  st.confirmationStatus = "confirmed" || st.confirmationStatus = "finalized"

/-- Result of one `pollConfirmation` run: either normal return at poll
index `i`, a thrown execution error at poll index `i`, or the timeout
error after the loop ends. -/
inductive PollResult where
  | confirmedAt (i : Nat)
  | execErrorAt (i : Nat) (details : String)
  | timeout
  deriving Repr, DecidableEq

/-- The polling loop of `pollConfirmation` (in `src/cli/index.ts` and
the transaction utils): at each iteration fetch the status (`obs i` is
the observation at the `i`-th poll, `none` when the RPC returns no
status yet), throw on `status.err`, return when confirmed/finalized,
else sleep one interval and re-check the while-condition.  `fuel` is
the number of loop iterations permitted by the while-condition. -/
def pollAux (obs : Nat → Option SigStatus) : Nat → Nat → PollResult
  | _, 0 => PollResult.timeout
  | i, fuel + 1 =>
    match obs i with
    | some st =>
      match st.err with
      | some e => PollResult.execErrorAt i e
      | none =>
        if isFinalStatus st then PollResult.confirmedAt i
        else pollAux obs (i + 1) fuel
    | none => pollAux obs (i + 1) fuel

/-- Number of loop iterations of `while (Date.now() - start < timeoutMs)`
with one `intervalMs` sleep per iteration: iteration `i` runs exactly
when `i * intervalMs < timeoutMs`. -/
def numPolls (timeoutMs intervalMs : Nat) : Nat :=
  (timeoutMs + intervalMs - 1) / intervalMs

/-- `pollConfirmation(connection, signature, timeoutMs = 15000,
intervalMs = 1000)`, abstracted over the sequence of observed statuses. -/
def pollConfirmation (obs : Nat → Option SigStatus)
    (timeoutMs intervalMs : Nat) : PollResult :=
  pollAux obs 0 (numPolls timeoutMs intervalMs)

/-- An observation that does not terminate the loop: no status yet, or
a status with no error that is not yet confirmed/finalized. -/
def nonTerminal (o : Option SigStatus) : Prop :=
  match o with
  | none => True
  | some st => st.err = none ∧ isFinalStatus st = false

theorem pollAux_step (obs : Nat → Option SigStatus) (i fuel : Nat)
    (h : nonTerminal (obs i)) :
    pollAux obs i (fuel + 1) = pollAux obs (i + 1) fuel := by
  cases ho : obs i with
  | none => simp [pollAux, ho]
  | some st =>
    have h' : st.err = none ∧ isFinalStatus st = false := by
      rw [ho] at h
      exact h
    simp [pollAux, ho, h'.1, h'.2]

theorem pollAux_hit_err (obs : Nat → Option SigStatus) (i fuel : Nat)
    (st : SigStatus) (e : String) (ho : obs i = some st)
    (he : st.err = some e) :
    pollAux obs i (fuel + 1) = PollResult.execErrorAt i e := by
  simp [pollAux, ho, he]

theorem pollAux_hit_confirmed (obs : Nat → Option SigStatus) (i fuel : Nat)
    (st : SigStatus) (ho : obs i = some st) (he : st.err = none)
    (hfin : isFinalStatus st = true) :
    pollAux obs i (fuel + 1) = PollResult.confirmedAt i := by
  simp [pollAux, ho, he, hfin]

theorem pollAux_skip (obs : Nat → Option SigStatus) (d : Nat) :
    ∀ (i fuel : Nat), (∀ k < d, nonTerminal (obs (i + k))) → d < fuel →
      pollAux obs i fuel = pollAux obs (i + d) (fuel - d) := by
  induction d with
  | zero => intro i fuel _ _; simp
  | succ n ih =>
    intro i fuel hnt hfuel
    match fuel, hfuel with
    | fuel + 1, _ =>
      have h0 : nonTerminal (obs i) := by
        have := hnt 0 (by omega)
        simpa using this
      rw [pollAux_step obs i fuel h0, ih (i + 1) fuel (fun k hk => by
          have := hnt (k + 1) (by omega)
          rw [show i + 1 + k = i + (k + 1) by omega]
          exact this)
        (by omega)]
      congr 1
      · omega
      · omega

theorem pollAux_all_nonTerminal (obs : Nat → Option SigStatus) :
    ∀ (fuel i : Nat), (∀ k < fuel, nonTerminal (obs (i + k))) →
      pollAux obs i fuel = PollResult.timeout := by
  intro fuel
  induction fuel with
  | zero => intro i _; rfl
  | succ n ih =>
    intro i hnt
    have h0 : nonTerminal (obs i) := by
      have := hnt 0 (by omega)
      simpa using this
    rw [pollAux_step obs i n h0]
    exact ih (i + 1) (fun k hk => by
      have := hnt (k + 1) (by omega)
      rw [show i + 1 + k = i + (k + 1) by omega]
      exact this)

/-- C8.  For `pollConfirmation` with the default 15 s timeout and 1 s
interval (15 polls): the first observation reporting an execution error
makes the poller throw that error at that very poll, without waiting
out the timeout; the first confirmed/finalized observation makes it
return at that very poll (within one interval); and if no
confirmed/finalized and no error status is ever observed in the
15-poll window, it raises the confirmation timeout. -/
theorem pollConfirmation_spec (obs : Nat → Option SigStatus) (j : Nat)
    (hj : j < 15) (hbefore : ∀ i < j, nonTerminal (obs i)) :
    (∀ st e, obs j = some st → st.err = some e →
      pollConfirmation obs 15000 1000 = PollResult.execErrorAt j e) ∧
    (∀ st, obs j = some st → st.err = none → isFinalStatus st = true →
      pollConfirmation obs 15000 1000 = PollResult.confirmedAt j) ∧
    ((∀ i < 15, nonTerminal (obs i)) →
      pollConfirmation obs 15000 1000 = PollResult.timeout) := by
  have hnum : numPolls 15000 1000 = 15 := by norm_num [numPolls]
  have hskip : pollAux obs 0 15 = pollAux obs j (15 - j) := by
    have := pollAux_skip obs j 0 15 (fun k hk => by
      have := hbefore k hk
      simpa using this) hj
    simpa using this
  obtain ⟨f, hf⟩ : ∃ f, 15 - j = f + 1 := ⟨14 - j, by omega⟩
  refine ⟨?_, ?_, ?_⟩
  · intro st e ho he
    unfold pollConfirmation
    rw [hnum, hskip, hf]
    exact pollAux_hit_err obs j f st e ho he
  · intro st ho he hfin
    unfold pollConfirmation
    rw [hnum, hskip, hf]
    exact pollAux_hit_confirmed obs j f st ho he hfin
  · intro hall
    unfold pollConfirmation
    rw [hnum]
    exact pollAux_all_nonTerminal obs 15 0 (fun k hk => by
      have := hall k hk
      simpa using this)

/-- C8 witness: a run where poll 2 is confirmed, a run where poll 1
reports an execution error, and a run with no status at all. -/
theorem pollConfirmation_spec_witness :
    ((2 : Nat) < 15 ∧
      pollConfirmation
        (fun i => if i = 2 then some ⟨none, "confirmed"⟩ else none)
        15000 1000 = PollResult.confirmedAt 2) ∧
    ((1 : Nat) < 15 ∧
      pollConfirmation
        (fun i => if i = 1 then some ⟨some "custom: 6002", "processed"⟩
          else none)
        15000 1000 = PollResult.execErrorAt 1 "custom: 6002") ∧
    pollConfirmation (fun _ => none) 15000 1000 = PollResult.timeout := by
  refine ⟨⟨by norm_num, ?_⟩, ⟨by norm_num, ?_⟩, ?_⟩
  · exact ((pollConfirmation_spec
      (fun i => if i = 2 then some ⟨none, "confirmed"⟩ else none) 2
      (by norm_num)
      (fun i hi => by interval_cases i <;> simp [nonTerminal])).2.1
      ⟨none, "confirmed"⟩ (by simp) rfl (by decide))
  · exact ((pollConfirmation_spec
      (fun i => if i = 1 then some ⟨some "custom: 6002", "processed"⟩
        else none) 1
      (by norm_num)
      (fun i hi => by
        have hz : i = 0 := by omega
        subst hz
        simp [nonTerminal])).1
      ⟨some "custom: 6002", "processed"⟩ "custom: 6002" (by simp) rfl)
  · exact ((pollConfirmation_spec (fun _ => none) 0 (by norm_num)
      (fun i hi => by omega)).2.2
      (fun i hi => by simp [nonTerminal]))
